import Mathlib

/-!
Verification development for the coreclaw orchestration core.

Each namespace below is a shallow embedding of one component of the
TypeScript source, translated definition by definition:

* `Approval`  — `src/approval/engine.ts` (`classifyChange`, draft lifecycle)
* `Quality`   — `QualityConductor.scoreDraft`
* `Db`        — `draftRepo` row mutators from `src/db.ts`
* `Ipc`       — the `IpcBus` event bus (a bare Node `EventEmitter`)
* `Queue`     — `TaskQueue` from `src/queue.ts`
* `Runner`    — sentinel-frame stdout parsing from `src/container-runner.ts`
* `Skills`    — the skill engine apply/rollback pipeline

JavaScript strings are modelled as Lean `String`s, numbers as `Nat`/`Int`
(with exact rational arithmetic where JS divides), maps as association
lists, and fallible steps as `Except`/`Option`.
-/

namespace StrUtil

/-- Whitespace test matching the JS regex class `\s` on the code points the
repository actually produces (space, tab, newline, carriage return, form
feed, vertical tab). -/
def isWs (c : Char) : Bool :=
  c = ' ' || c = '\t' || c = '\n' || c = '\r' || c = '\x0b' || c = '\x0c'

/-- Helper for `jsSplitWs`: walks the character list, accumulating the
current token (reversed); `inWs` records whether the previous character was
whitespace, so that a run of whitespace produces a single split point. -/
def splitWsGo : List Char → List Char → Bool → List (List Char)
  | [], cur, _ => [cur.reverse]
  | c :: rest, cur, inWs =>
    if isWs c then
      if inWs then splitWsGo rest [] true
      else cur.reverse :: splitWsGo rest [] true
    else splitWsGo rest (c :: cur) false

/-- JS `s.split(/\s+/)`: splits on maximal whitespace runs; leading or
trailing whitespace yields an empty boundary element, and the empty string
splits to `[""]`. -/
def jsSplitWs (s : String) : List String :=
  (splitWsGo s.data [] false).map List.asString

/-- JS `s.toLowerCase()` restricted to the character-wise lowering that the
repository's ASCII content exercises. -/
def jsToLower (s : String) : String :=
  (s.data.map Char.toLower).asString

/-- JS `s.trim()`: drop whitespace from both ends. -/
def jsTrim (s : String) : String :=
  (((s.data.dropWhile isWs).reverse.dropWhile isWs).reverse).asString

/-- Does `pat` occur as a prefix of `l`? (Plain structural recursion, used
to model JS `String.prototype.indexOf` and `includes`.) -/
def listStartsWith : List Char → List Char → Bool
  | [], _ => true
  | _ :: _, [] => false
  | p :: ps, c :: cs => p = c && listStartsWith ps cs

/-- First index `i ≥ start` at which `pat` occurs in `raw`, scanning left to
right with explicit fuel; `none` if there is no occurrence. -/
def indexOfFromAux (pat raw : List Char) : Nat → Nat → Option Nat
  | _, 0 => none
  | i, fuel + 1 =>
    if listStartsWith pat (raw.drop i) then some i
    else if raw.length ≤ i then none
    else indexOfFromAux pat raw (i + 1) fuel

/-- JS `raw.indexOf(pat, start)` (as a position option rather than `-1`). -/
def indexOfFrom (pat raw : List Char) (start : Nat) : Option Nat :=
  indexOfFromAux pat raw start (raw.length + 1)

/-- JS `s.includes(sub)`. -/
def containsSub (s sub : String) : Bool :=
  (indexOfFrom sub.data s.data 0).isSome

end StrUtil

namespace Approval

open StrUtil

/-- `Correction["changeType"]` from `src/approval/types.ts`. -/
inductive ChangeType where
  | minor_edit
  | major_rewrite
  | tone_change
  | factual_fix
  | rejection
deriving DecidableEq, Repr

/-- Lower-cased whitespace tokens of a body, as produced by
`original.toLowerCase().split(/\s+/)` in `classifyChange`. -/
def wordTokens (s : String) : List String :=
  jsSplitWs (jsToLower s)

/-- The word-set difference count of `classifyChange`:
`|editedSet \ originalSet| + |originalSet \ editedSet|` over the deduplicated
token sets (JS `Set` membership). -/
def changedCount (original edited : String) : Nat :=
  let originalWords := wordTokens original
  let editedWords := wordTokens edited
  ((editedWords.eraseDups).filter (fun w => ¬ originalWords.contains w)).length
    + ((originalWords.eraseDups).filter (fun w => ¬ editedWords.contains w)).length

/-- `totalWords = Math.max(originalWords.length, editedWords.length)`. -/
def totalWords (original edited : String) : Nat :=
  max (wordTokens original).length (wordTokens edited).length

/-- `changeRatio = changedCount / (totalWords * 2)`, as an exact rational
(JS divides IEEE doubles; for the word counts that arise the comparisons
against 0.5 and 0.2 agree with exact rational arithmetic). -/
def changeRatio (original edited : String) : ℚ :=
  (changedCount original edited : ℚ) / ((totalWords original edited : ℚ) * 2)

/-- `classifyChange` from `src/approval/engine.ts`: empty or
whitespace-only edit is a rejection; otherwise thresholds on the word-set
difference ratio. -/
def classifyChange (original edited : String) : ChangeType :=
  if edited = "" || jsTrim edited = "" then .rejection
  else
    if changeRatio original edited > 1/2 then .major_rewrite
    else if changeRatio original edited > 1/5 then .tone_change
    else .minor_edit

end Approval

namespace StrUtil

theorem splitWsGo_length_pos (l : List Char) (cur : List Char) (b : Bool) :
    0 < (splitWsGo l cur b).length := by
  induction l generalizing cur b with
  | nil => simp [splitWsGo]
  | cons c rest ih =>
    rw [splitWsGo]
    split
    · split
      · exact ih [] true
      · simp
    · exact ih (c :: cur) false

end StrUtil

namespace Approval

open StrUtil

theorem totalWords_pos (o e : String) : 0 < totalWords o e := by
  have h : 0 < (wordTokens o).length := by
    unfold wordTokens jsSplitWs
    simpa using splitWsGo_length_pos _ [] false
  exact lt_of_lt_of_le h (le_max_left _ _)

theorem gt_half_iff (o e : String) :
    (changeRatio o e > 1/2) ↔ totalWords o e < changedCount o e := by
  have htq : (0:ℚ) < (totalWords o e : ℚ) * 2 := by
    have : (0:ℚ) < (totalWords o e : ℚ) := by exact_mod_cast totalWords_pos o e
    linarith
  rw [gt_iff_lt, changeRatio, div_lt_div_iff₀ (by norm_num) htq, one_mul]
  constructor
  · intro h
    have h2 : (totalWords o e : ℚ) < (changedCount o e : ℚ) := by linarith
    exact_mod_cast h2
  · intro h
    have h2 : (totalWords o e : ℚ) < (changedCount o e : ℚ) := by exact_mod_cast h
    linarith

theorem gt_fifth_iff (o e : String) :
    (changeRatio o e > 1/5) ↔ 2 * totalWords o e < 5 * changedCount o e := by
  have htq : (0:ℚ) < (totalWords o e : ℚ) * 2 := by
    have : (0:ℚ) < (totalWords o e : ℚ) := by exact_mod_cast totalWords_pos o e
    linarith
  rw [gt_iff_lt, changeRatio, div_lt_div_iff₀ (by norm_num) htq, one_mul]
  constructor
  · intro h
    have h2 : (2 * totalWords o e : ℚ) < (5 * changedCount o e : ℚ) := by linarith
    exact_mod_cast h2
  · intro h
    have h2 : (2 * totalWords o e : ℚ) < (5 * changedCount o e : ℚ) := by exact_mod_cast h
    push_cast at h2
    linarith

/-- The threshold tests of `classifyChange`, restated over natural-number
cross-multiplications so that concrete instances can be decided. -/
theorem classify_eq (o e : String) (h1 : ¬ e = "") (h2 : ¬ jsTrim e = "") :
    classifyChange o e =
      if totalWords o e < changedCount o e then .major_rewrite
      else if 2 * totalWords o e < 5 * changedCount o e then .tone_change
      else .minor_edit := by
  rw [classifyChange, if_neg (by simp [h1, h2])]
  simp only [gt_half_iff, gt_fifth_iff]

/-- A 50-token body (49 distinct tokens, `a1` repeated) used to exercise the
edit-classification thresholds at exact ratios. -/
def ratioOriginal : String :=
  "a1 a2 a3 a4 a5 a6 a7 a8 a9 a10 a11 a12 a13 a14 a15 a16 a17 a18 a19 a20 a21 a22 a23 a24 a25 a26 a27 a28 a29 a30 a31 a32 a33 a34 a35 a36 a37 a38 a39 a40 a41 a42 a43 a44 a45 a46 a47 a48 a49 a1"

/-- Edit of `ratioOriginal` with word-set difference 10 + 9 = 19 over 50
tokens: ratio 0.19. -/
def ratioEdit19 : String :=
  "a1 a2 a3 a4 a5 a6 a7 a8 a9 a10 a11 a12 a13 a14 a15 a16 a17 a18 a19 a20 a21 a22 a23 a24 a25 a26 a27 a28 a29 a30 a31 a32 a33 a34 a35 a36 a37 a38 a39 a40 b1 b2 b3 b4 b5 b6 b7 b8 b9 b10"

/-- Edit of `ratioOriginal` with word-set difference 11 + 10 = 21 over 50
tokens: ratio 0.21. -/
def ratioEdit21 : String :=
  "a1 a2 a3 a4 a5 a6 a7 a8 a9 a10 a11 a12 a13 a14 a15 a16 a17 a18 a19 a20 a21 a22 a23 a24 a25 a26 a27 a28 a29 a30 a31 a32 a33 a34 a35 a36 a37 a38 a39 b1 b2 b3 b4 b5 b6 b7 b8 b9 b10 b11"

/-- Edit of `ratioOriginal` with word-set difference 26 + 25 = 51 over 50
tokens: ratio 0.51. -/
def ratioEdit51 : String :=
  "a1 a2 a3 a4 a5 a6 a7 a8 a9 a10 a11 a12 a13 a14 a15 a16 a17 a18 a19 a20 a21 a22 a23 a24 b1 b2 b3 b4 b5 b6 b7 b8 b9 b10 b11 b12 b13 b14 b15 b16 b17 b18 b19 b20 b21 b22 b23 b24 b25 b26"

/-- C6: `classifyChange` computes the word-set difference ratio
`changed / (2·total)` over lower-cased whitespace tokens, mapping empty or
whitespace-only edits to `rejection`, ratio > 0.5 to `major_rewrite`,
ratio > 0.2 to `tone_change` and anything else to `minor_edit`; concretely a
ratio of 0.19 yields `minor_edit`, 0.21 yields `tone_change` and 0.51 yields
`major_rewrite`. -/
theorem classifyChange_ratio_spec :
    (∀ o e : String, classifyChange o e =
      if e = "" ∨ jsTrim e = "" then .rejection
      else if changeRatio o e > 1/2 then .major_rewrite
      else if changeRatio o e > 1/5 then .tone_change
      else .minor_edit)
    ∧ changeRatio ratioOriginal ratioEdit19 = 19/100
    ∧ classifyChange ratioOriginal ratioEdit19 = .minor_edit
    ∧ changeRatio ratioOriginal ratioEdit21 = 21/100
    ∧ classifyChange ratioOriginal ratioEdit21 = .tone_change
    ∧ changeRatio ratioOriginal ratioEdit51 = 51/100
    ∧ classifyChange ratioOriginal ratioEdit51 = .major_rewrite
    ∧ classifyChange ratioOriginal "" = .rejection
    ∧ classifyChange ratioOriginal "   " = .rejection := by
  have h19c : changedCount ratioOriginal ratioEdit19 = 19 := by decide
  have h19t : totalWords ratioOriginal ratioEdit19 = 50 := by decide
  have h21c : changedCount ratioOriginal ratioEdit21 = 21 := by decide
  have h21t : totalWords ratioOriginal ratioEdit21 = 50 := by decide
  have h51c : changedCount ratioOriginal ratioEdit51 = 51 := by decide
  have h51t : totalWords ratioOriginal ratioEdit51 = 50 := by decide
  refine ⟨?_, ?_, ?_, ?_, ?_, ?_, ?_, ?_, ?_⟩
  · intro o e
    simp only [classifyChange, Bool.or_eq_true, decide_eq_true_eq]
  · rw [changeRatio, h19c, h19t]
    norm_num
  · rw [classify_eq _ _ (by decide) (by decide), h19c, h19t]
    decide
  · rw [changeRatio, h21c, h21t]
    norm_num
  · rw [classify_eq _ _ (by decide) (by decide), h21c, h21t]
    decide
  · rw [changeRatio, h51c, h51t]
    norm_num
  · rw [classify_eq _ _ (by decide) (by decide), h51c, h51t]
    decide
  · rw [classifyChange]
    simp
  · rw [classifyChange]
    rw [if_pos (by decide)]

/-- C10: `classifyChange` never produces `factual_fix`, so every correction
recorded by `editAndApproveDraft` has a change type among rejection,
major_rewrite, tone_change, minor_edit. -/
theorem classifyChange_never_factual_fix (original edited : String) :
    classifyChange original edited ≠ .factual_fix := by
  rw [classifyChange]
  split_ifs <;> simp

end Approval

namespace Quality

open StrUtil

/-- The fields of a draft that `QualityConductor.scoreDraft` inspects. -/
structure QDraft where
  body : String
  subject : String
  toRecipients : List String
deriving DecidableEq, Repr

/-- Result shape of `scoreDraft`. -/
structure ScoreResult where
  score : Int
  issues : List String
deriving DecidableEq, Repr

/-- One `if (cond) then issues.push(label); score -= delta` step of the
scoring pass. -/
def step (cond : Prop) [Decidable cond] (label : String) (delta : Int)
    (acc : List String × Int) : List String × Int :=
  if cond then (acc.1 ++ [label], acc.2 - delta) else acc

/-- The policy-violation step: when `checkPolicyViolation` returns a label,
push it and subtract 30. -/
def polStep (violation : Option String) (acc : List String × Int) :
    List String × Int :=
  match violation with
  | some v => (acc.1 ++ [v], acc.2 - 30)
  | none => acc

/-- `QualityConductor.scoreDraft`: sequential penalty subtraction from 100,
clamped to [0, 100] at the end. The `checkPolicyViolation` regex test is
abstracted as the `policyViolation` parameter (returning the violation label
when a sensitive pattern matches the body, `none` otherwise). JS string
`.length` is modelled as character count. -/
def scoreDraft (policyViolation : String → Option String) (d : QDraft) : ScoreResult :=
  let acc : List String × Int := ([], 100)
  let acc := step (d.body.length < 20) "Antwort zu kurz" 30 acc
  let acc := step (5000 < d.body.length) "Antwort möglicherweise zu lang" 10 acc
  let acc := step (d.subject = "" ∨ d.subject.length < 3) "Betreff fehlt oder zu kurz" 15 acc
  let acc := step (d.toRecipients.length = 0) "Kein Empfänger angegeben" 25 acc
  let acc := polStep (policyViolation d.body) acc
  let lower := jsToLower d.body
  let acc := step (containsSub lower "!!!" = true ∨ containsSub lower "???" = true)
    "Übermäßige Satzzeichen" 10 acc
  { score := max 0 (min 100 acc.2), issues := acc.1 }

/-- The draft score as the spec describes it: 100 minus one indicator
penalty per check, clamped to [0, 100]. -/
def scoreSpec (policyViolation : String → Option String) (d : QDraft) : Int :=
  max 0 (min 100 (100
    - (if d.body.length < 20 then 30 else 0)
    - (if 5000 < d.body.length then 10 else 0)
    - (if d.subject = "" ∨ d.subject.length < 3 then 15 else 0)
    - (if d.toRecipients.length = 0 then 25 else 0)
    - (if (policyViolation d.body).isSome then 30 else 0)
    - (if containsSub (jsToLower d.body) "!!!" = true
          ∨ containsSub (jsToLower d.body) "???" = true then 10 else 0)))

/-- The same score with the short-body penalty removed (what a body of
length ≥ 20 receives). -/
def scoreSpecNoShort (policyViolation : String → Option String) (d : QDraft) : Int :=
  max 0 (min 100 (100
    - (if 5000 < d.body.length then 10 else 0)
    - (if d.subject = "" ∨ d.subject.length < 3 then 15 else 0)
    - (if d.toRecipients.length = 0 then 25 else 0)
    - (if (policyViolation d.body).isSome then 30 else 0)
    - (if containsSub (jsToLower d.body) "!!!" = true
          ∨ containsSub (jsToLower d.body) "???" = true then 10 else 0)))

/-- C7: draft scoring starts at 100 and subtracts 30/10/15/25/30/10 for the
respective checks, clamped to [0,100]; a body shorter than 20 characters
caps the score at 70, and a body of length ≥ 20 incurs no short-body
penalty. -/
theorem scoreDraft_spec (pv : String → Option String) (d : QDraft) :
    (scoreDraft pv d).score = scoreSpec pv d
    ∧ (d.body.length < 20 → (scoreDraft pv d).score ≤ 70)
    ∧ (20 ≤ d.body.length → (scoreDraft pv d).score = scoreSpecNoShort pv d) := by
  have hstep : ∀ (c : Prop) (inst : Decidable c) (l : String) (δ : Int)
      (acc : List String × Int), (step c l δ acc).2 = acc.2 - (if c then δ else 0) := by
    intro c inst l δ acc
    unfold step
    split_ifs <;> simp
  have hpol : ∀ (v : Option String) (acc : List String × Int),
      (polStep v acc).2 = acc.2 - (if v.isSome then 30 else 0) := by
    intro v acc
    cases v <;> simp [polStep]
  have hmain : (scoreDraft pv d).score = scoreSpec pv d := by
    simp only [scoreDraft, scoreSpec, hstep, hpol]
  refine ⟨hmain, ?_, ?_⟩
  · intro hshort
    rw [hmain]
    rw [scoreSpec, if_pos hshort]
    split_ifs <;> omega
  · intro hlong
    rw [hmain, scoreSpec, scoreSpecNoShort, if_neg (by omega)]
    split_ifs <;> omega

/-- A draft whose body has exactly 19 characters. -/
def demoDraft19 : QDraft :=
  { body := "Danke sehr. Gruesse", subject := "Re: Anfrage", toRecipients := ["kunde@example.com"] }

/-- A draft whose body has exactly 20 characters. -/
def demoDraft20 : QDraft :=
  { body := "Danke sehr. Gruesse.", subject := "Re: Anfrage", toRecipients := ["kunde@example.com"] }

/-- Witness for C7 at concrete drafts: the 19-character body scores at most
70 and the 20-character body avoids the short-body penalty. -/
theorem scoreDraft_spec_witness :
    (scoreDraft (fun _ => none) demoDraft19).score ≤ 70
    ∧ (scoreDraft (fun _ => none) demoDraft20).score
        = scoreSpecNoShort (fun _ => none) demoDraft20 :=
  ⟨(scoreDraft_spec (fun _ => none) demoDraft19).2.1 (by decide),
   (scoreDraft_spec (fun _ => none) demoDraft20).2.2 (by decide)⟩

end Quality

namespace Db

/-- `DraftStatus` from `src/approval/types.ts`. -/
inductive DraftStatus where
  | pending_review
  | approved
  | rejected
  | sent
  | edited_and_sent
  | auto_approved
deriving DecidableEq, Repr

/-- `TaskPriority` / draft priority. -/
inductive Priority where
  | low
  | normal
  | high
  | urgent
deriving DecidableEq, Repr

/-- A row of the `drafts` table (timestamps as abstract `Nat` instants,
JSON-typed columns kept as strings). -/
structure DraftRow where
  id : String
  taskId : String
  sourceMessageId : Option String
  channel : String
  toRecipients : List String
  cc : List String
  subject : String
  body : String
  originalBody : String
  status : DraftStatus
  priority : Priority
  conductorNotes : Option String
  qualityScore : Option Int
  qualityNotes : Option String
  autoApproveMatch : Option String
  reviewedBy : Option String
  reviewedAt : Option Nat
  sentAt : Option Nat
  externalDraftId : Option String
  metadata : String
  createdAt : Nat
  updatedAt : Nat
deriving DecidableEq, Repr

/-- The argument of `draftRepo.insert`: a draft minus the two
store-assigned timestamps (`Omit<Draft, "createdAt" | "updatedAt">`). -/
structure DraftInput where
  id : String
  taskId : String
  sourceMessageId : Option String
  channel : String
  toRecipients : List String
  cc : List String
  subject : String
  body : String
  originalBody : String
  status : DraftStatus
  priority : Priority
  conductorNotes : Option String
  qualityScore : Option Int
  qualityNotes : Option String
  autoApproveMatch : Option String
  reviewedBy : Option String
  reviewedAt : Option Nat
  sentAt : Option Nat
  externalDraftId : Option String
  metadata : String
deriving DecidableEq, Repr

/-- SQL `COALESCE(a, b)`. -/
def coalesce (a b : Option α) : Option α :=
  match a with
  | some v => some v
  | none => b

/-- `draftRepo.insert`: every column comes from the input record; both
timestamps are set to the insertion instant. -/
def insertRow (now : Nat) (i : DraftInput) : DraftRow :=
  { id := i.id, taskId := i.taskId, sourceMessageId := i.sourceMessageId,
    channel := i.channel, toRecipients := i.toRecipients, cc := i.cc,
    subject := i.subject, body := i.body, originalBody := i.originalBody,
    status := i.status, priority := i.priority,
    conductorNotes := i.conductorNotes, qualityScore := i.qualityScore,
    qualityNotes := i.qualityNotes, autoApproveMatch := i.autoApproveMatch,
    reviewedBy := i.reviewedBy, reviewedAt := i.reviewedAt,
    sentAt := i.sentAt, externalDraftId := i.externalDraftId,
    metadata := i.metadata, createdAt := now, updatedAt := now }

/-- `draftRepo.updateStatus` on one row: sets the status, coalesces
`reviewed_by`, `reviewed_at` (for approved/rejected/edited_and_sent) and
`sent_at` (for sent/edited_and_sent/auto_approved), and touches
`updated_at`. -/
def updateStatusRow (now : Nat) (status : DraftStatus)
    (reviewedBy : Option String) (d : DraftRow) : DraftRow :=
  let reviewedAt : Option Nat :=
    if status = .approved ∨ status = .rejected ∨ status = .edited_and_sent
    then some now else none
  let sentAt : Option Nat :=
    if status = .sent ∨ status = .edited_and_sent ∨ status = .auto_approved
    then some now else none
  { d with status := status,
           reviewedBy := coalesce reviewedBy d.reviewedBy,
           reviewedAt := coalesce reviewedAt d.reviewedAt,
           sentAt := coalesce sentAt d.sentAt,
           updatedAt := now }

/-- `draftRepo.updateBody` on one row: sets the body (and the subject when
one is passed) and touches `updated_at`. -/
def updateBodyRow (now : Nat) (body : String) (subject : Option String)
    (d : DraftRow) : DraftRow :=
  match subject with
  | some s => { d with body := body, subject := s, updatedAt := now }
  | none => { d with body := body, updatedAt := now }

/-- `draftRepo.updateQuality` on one row: sets score and notes and touches
`updated_at`. -/
def updateQualityRow (now : Nat) (score : Int) (notes : String)
    (d : DraftRow) : DraftRow :=
  { d with qualityScore := some score, qualityNotes := some notes,
           updatedAt := now }

/-- One call to a `draftRepo` mutator. -/
inductive DraftOp where
  | status (now : Nat) (st : DraftStatus) (reviewedBy : Option String)
  | body (now : Nat) (b : String) (subject : Option String)
  | quality (now : Nat) (score : Int) (notes : String)

/-- Apply one mutator call to a row. -/
def applyOp : DraftOp → DraftRow → DraftRow
  | .status now st rb, d => updateStatusRow now st rb d
  | .body now b subj, d => updateBodyRow now b subj d
  | .quality now sc notes, d => updateQualityRow now sc notes d

/-- Apply a sequence of mutator calls in order. -/
def applyOps (ops : List DraftOp) (d : DraftRow) : DraftRow :=
  ops.foldl (fun d op => applyOp op d) d

/-- No mutator touches `original_body`. -/
theorem applyOp_originalBody (op : DraftOp) (d : DraftRow) :
    (applyOp op d).originalBody = d.originalBody := by
  cases op with
  | status now st rb => simp [applyOp, updateStatusRow]
  | body now b subj => cases subj <;> simp [applyOp, updateBodyRow]
  | quality now sc notes => simp [applyOp, updateQualityRow]

/-- C8: a draft inserted with `original_body` equal to its body (as
`createDraft` always does) keeps that `original_body` across any sequence
of `updateStatus` / `updateBody` / `updateQuality` calls. -/
theorem originalBody_immutable (i : DraftInput) (now : Nat)
    (ops : List DraftOp) (h : i.originalBody = i.body) :
    (applyOps ops (insertRow now i)).originalBody = i.body := by
  suffices hgen : ∀ (d : DraftRow) (ops : List DraftOp),
      (applyOps ops d).originalBody = d.originalBody by
    rw [hgen, insertRow]
    exact h
  intro d ops
  induction ops generalizing d with
  | nil => rfl
  | cons op rest ih =>
    rw [applyOps, List.foldl_cons, ← applyOps, ih, applyOp_originalBody]

/-- A concrete draft-insert input used by the witnesses. -/
def demoInput : DraftInput :=
  { id := "d1", taskId := "t1", sourceMessageId := some "m1",
    channel := "email", toRecipients := ["kunde@example.com"], cc := [],
    subject := "Re: Anfrage", body := "Vielen Dank", originalBody := "Vielen Dank",
    status := .pending_review, priority := .normal, conductorNotes := none,
    qualityScore := none, qualityNotes := none, autoApproveMatch := none,
    reviewedBy := none, reviewedAt := none, sentAt := none,
    externalDraftId := none, metadata := "" }

/-- Witness for C8: a concrete insert followed by a body edit, a status
change and a quality update keeps `original_body`. -/
theorem originalBody_immutable_witness :
    (applyOps
      [.body 2 "Neuer Text" (some "Neuer Betreff"),
       .status 3 .edited_and_sent (some "editor"),
       .quality 4 85 "ok"]
      (insertRow 1 demoInput)).originalBody = "Vielen Dank" :=
  originalBody_immutable demoInput 1
    [.body 2 "Neuer Text" (some "Neuer Betreff"),
     .status 3 .edited_and_sent (some "editor"),
     .quality 4 85 "ok"] rfl

end Db

namespace Engine

open Db

/-- Events the approval engine publishes on the bus (payloads elided —
only which events fire matters here). -/
inductive EngEvent where
  | draftCreated (draftId : String)
  | draftApproved (draftId : String)
  | draftRejected (draftId : String)
  | draftEdited (draftId : String)
  | correctionRecorded (draftId : String)
  | draftSent (draftId : String)
  | draftAutoApproved (draftId : String) (matchedRule : String)
deriving DecidableEq, Repr

/-- A row of the `corrections` table (insert-time view). -/
structure CorrectionRec where
  id : String
  draftId : String
  taskId : String
  originalBody : String
  editedBody : String
  editedSubject : Option String
  changeType : Approval.ChangeType
  feedback : Option String
deriving DecidableEq, Repr

/-- The store and bus state the approval engine touches. -/
structure EngineState where
  drafts : List DraftRow
  corrections : List CorrectionRec
  events : List EngEvent
deriving DecidableEq, Repr

/-- `draftRepo.findById`. -/
def findDraft (draftId : String) (s : EngineState) : Option DraftRow :=
  s.drafts.find? (fun d => d.id = draftId)

/-- `draftRepo.updateStatus` lifted to the store. -/
def storeUpdateStatus (now : Nat) (draftId : String) (st : DraftStatus)
    (rb : Option String) (s : EngineState) : EngineState :=
  { s with
    drafts := s.drafts.map fun d =>
      if d.id = draftId then updateStatusRow now st rb d else d }

/-- `draftRepo.updateBody` lifted to the store. -/
def storeUpdateBody (now : Nat) (draftId : String) (body : String)
    (subject : Option String) (s : EngineState) : EngineState :=
  { s with
    drafts := s.drafts.map fun d =>
      if d.id = draftId then updateBodyRow now body subject d else d }

/-- `correctionRepo.insert` lifted to the store. -/
def insertCorrection (c : CorrectionRec) (s : EngineState) : EngineState :=
  { s with corrections := s.corrections ++ [c] }

/-- `ipcBus.publish` as seen from the engine: append the event. -/
def publish (ev : EngEvent) (s : EngineState) : EngineState :=
  { s with events := s.events ++ [ev] }

/-- `approveDraft`: only from `pending_review`; otherwise `null` with no
mutation and no event. -/
def approveDraft (now : Nat) (draftId : String) (reviewedBy : String)
    (s : EngineState) : Option DraftRow × EngineState :=
  match findDraft draftId s with
  | none => (none, s)
  | some draft =>
    if draft.status ≠ .pending_review then (none, s)
    else
      let s := storeUpdateStatus now draftId .approved (some reviewedBy) s
      let s := publish (.draftApproved draftId) s
      (findDraft draftId s, s)

/-- `rejectDraft`: only from `pending_review`; records a `rejection`
correction with empty edited body and the reason as feedback. -/
def rejectDraft (now : Nat) (corrId : String) (draftId : String)
    (reason : String) (reviewedBy : String) (s : EngineState) :
    Option DraftRow × EngineState :=
  match findDraft draftId s with
  | none => (none, s)
  | some draft =>
    if draft.status ≠ .pending_review then (none, s)
    else
      let s := storeUpdateStatus now draftId .rejected (some reviewedBy) s
      let s := insertCorrection
        { id := corrId, draftId := draft.id, taskId := draft.taskId,
          originalBody := draft.originalBody, editedBody := "",
          editedSubject := none, changeType := .rejection,
          feedback := some reason } s
      let s := publish (.draftRejected draftId) s
      (findDraft draftId s, s)

/-- `editAndApproveDraft`: only from `pending_review`; classifies the edit
against `original_body`, updates body and status, records the correction
and publishes `draft:edited` then `correction:recorded`. -/
def editAndApproveDraft (now : Nat) (corrId : String) (draftId : String)
    (editedBody : String) (editedSubject : Option String)
    (feedback : Option String) (reviewedBy : String) (s : EngineState) :
    Option DraftRow × EngineState :=
  match findDraft draftId s with
  | none => (none, s)
  | some draft =>
    if draft.status ≠ .pending_review then (none, s)
    else
      let changeType := Approval.classifyChange draft.originalBody editedBody
      let s := storeUpdateBody now draftId editedBody editedSubject s
      let s := storeUpdateStatus now draftId .edited_and_sent (some reviewedBy) s
      let s := insertCorrection
        { id := corrId, draftId := draft.id, taskId := draft.taskId,
          originalBody := draft.originalBody, editedBody := editedBody,
          editedSubject := editedSubject, changeType := changeType,
          feedback := feedback } s
      let s := publish (.draftEdited draftId) s
      let s := publish (.correctionRecorded draft.id) s
      (findDraft draftId s, s)

/-- `autoApproveDraft`: only from `pending_review`. -/
def autoApproveDraft (now : Nat) (draftId : String) (matchedRule : String)
    (s : EngineState) : Option DraftRow × EngineState :=
  match findDraft draftId s with
  | none => (none, s)
  | some draft =>
    if draft.status ≠ .pending_review then (none, s)
    else
      let s := storeUpdateStatus now draftId .auto_approved none s
      let s := publish (.draftAutoApproved draftId matchedRule) s
      (findDraft draftId s, s)

/-- C9: for a draft id that is missing from the store or whose draft is not
in `pending_review`, each of the four review entry points returns `null`,
leaves the store (drafts and corrections) untouched and publishes no
event. -/
theorem review_guard_noop (now : Nat) (corrId draftId : String)
    (reason reviewedBy : String) (editedBody : String)
    (editedSubject : Option String) (feedback : Option String)
    (matchedRule : String) (s : EngineState)
    (h : ∀ d, findDraft draftId s = some d → d.status ≠ .pending_review) :
    approveDraft now draftId reviewedBy s = (none, s)
    ∧ rejectDraft now corrId draftId reason reviewedBy s = (none, s)
    ∧ editAndApproveDraft now corrId draftId editedBody editedSubject
        feedback reviewedBy s = (none, s)
    ∧ autoApproveDraft now draftId matchedRule s = (none, s) := by
  have happ : approveDraft now draftId reviewedBy s = (none, s) := by
    unfold approveDraft
    cases hf : findDraft draftId s with
    | none => rfl
    | some d => simp [h d hf]
  have hrej : rejectDraft now corrId draftId reason reviewedBy s = (none, s) := by
    unfold rejectDraft
    cases hf : findDraft draftId s with
    | none => rfl
    | some d => simp [h d hf]
  have hedit : editAndApproveDraft now corrId draftId editedBody editedSubject
      feedback reviewedBy s = (none, s) := by
    unfold editAndApproveDraft
    cases hf : findDraft draftId s with
    | none => rfl
    | some d => simp [h d hf]
  have hauto : autoApproveDraft now draftId matchedRule s = (none, s) := by
    unfold autoApproveDraft
    cases hf : findDraft draftId s with
    | none => rfl
    | some d => simp [h d hf]
  exact ⟨happ, hrej, hedit, hauto⟩

/-- A store holding a single draft that is already approved. -/
def approvedState : EngineState :=
  { drafts := [insertRow 1 { demoInput with status := .approved }],
    corrections := [], events := [] }

/-- Witness for C9 at a concrete store: the draft `d1` exists but is
`approved`, so all four entry points are no-ops returning `null`. -/
theorem review_guard_noop_witness :
    approveDraft 2 "d1" "user" approvedState = (none, approvedState)
    ∧ rejectDraft 2 "c1" "d1" "falsch" "user" approvedState = (none, approvedState)
    ∧ editAndApproveDraft 2 "c1" "d1" "neu" none none "user" approvedState
        = (none, approvedState)
    ∧ autoApproveDraft 2 "d1" "rule" approvedState = (none, approvedState) :=
  review_guard_noop 2 "c1" "d1" "falsch" "user" "neu" none none "rule"
    approvedState
    (by
      intro d hd
      have hfind : findDraft "d1" approvedState
          = some (insertRow 1 { demoInput with status := .approved }) := by decide
      rw [hfind] at hd
      cases hd
      decide)

end Engine

namespace Ipc

/-- An event envelope as built by `IpcBus.publish` (payload kept opaque). -/
structure Envelope where
  id : Nat
  type : String
  source : String
  target : Option String
  payload : String
  timestamp : Nat

/-- A subscriber handler: acts on a log of observable effects and either
returns the extended log or raises (the error string), in which case the
effects recorded before the raise persist. -/
def Handler : Type := Envelope → List String → List String × Option String

/-- The bus: its listener table in registration order, as kept by the Node
`EventEmitter` that `IpcBus` extends (`subscribe` appends via `.on`). -/
structure IpcBus where
  listeners : List (String × Handler)

/-- The listeners registered for one event name, in subscription order. -/
def listenersFor (bus : IpcBus) (ty : String) : List Handler :=
  bus.listeners.filterMap fun p => if p.1 = ty then some p.2 else none

/-- `EventEmitter.emit` over a listener list: call each handler in order; a
raising handler propagates its exception immediately, so later handlers in
the list are never invoked. -/
def runHandlers : List Handler → Envelope → List String →
    List String × Option String
  | [], _, log => (log, none)
  | h :: rest, ev, log =>
    match (h ev log).2 with
    | none => runHandlers rest ev (h ev log).1
    | some e => ((h ev log).1, some e)

/-- `this.emit(type, event)`. -/
def emit (bus : IpcBus) (ty : String) (ev : Envelope) (log : List String) :
    List String × Option String :=
  runHandlers (listenersFor bus ty) ev log

/-- `IpcBus.publish`: build the envelope, emit under the event type, then
emit under the wildcard `"*"`; an exception from the first emit propagates
before the wildcard emit runs. -/
def publish (bus : IpcBus) (ty source payload : String)
    (target : Option String) (id ts : Nat) (log : List String) :
    List String × Option String :=
  let ev : Envelope :=
    { id := id, type := ty, source := source, target := target,
      payload := payload, timestamp := ts }
  let r := emit bus ty ev log
  match r.2 with
  | some e => (r.1, some e)
  | none => emit bus "*" ev r.1

/-- A handler that throws. -/
def throwingHandler : Handler := fun _ log => (log, some "boom")

/-- A handler that records its invocation. -/
def recordingHandler : Handler := fun _ log => (log ++ ["h2"], none)

/-- A bus with two subscribers for `task:created`, the first of which
throws. -/
def demoBus : IpcBus :=
  { listeners := [("task:created", throwingHandler), ("task:created", recordingHandler)] }

/-- C2 counterexample: on `demoBus`, publishing `task:created` propagates
the first subscriber's exception out of `publish` and the second
subscriber is never invoked (its log entry is absent), refuting the claim
that a raising handler is logged and delivery continues. -/
theorem publish_throw_aborts_cex :
    (publish demoBus "task:created" "test" "payload" none 1 0 []).2 = some "boom"
    ∧ "h2" ∉ (publish demoBus "task:created" "test" "payload" none 1 0 []).1 := by
  exact ⟨rfl, by decide⟩

/-- C2 (amended): delivery is synchronous in subscription order, but when a
handler raises, the exception propagates to the publisher and every
later-subscribed handler (and the wildcard pass) is skipped: the result of
`runHandlers` past a raising handler does not depend on the remaining
handlers, and on the concrete two-subscriber bus the publish returns the
error with an empty log. -/
theorem publish_throw_aborts (pre post : List Handler) (h : Handler)
    (ev : Envelope) (log log' log'' : List String) (e : String)
    (hpre : runHandlers pre ev log = (log', none))
    (herr : h ev log' = (log'', some e)) :
    runHandlers (pre ++ h :: post) ev log = (log'', some e)
    ∧ (publish demoBus "task:created" "test" "payload" none 1 0 []
        = ([], some "boom")) := by
  constructor
  · induction pre generalizing log with
    | nil =>
      rw [runHandlers, Prod.mk.injEq] at hpre
      obtain ⟨h1, -⟩ := hpre
      subst h1
      rw [List.nil_append, runHandlers, herr]
    | cons h0 rest ih =>
      rw [runHandlers] at hpre
      rw [List.cons_append, runHandlers]
      cases hr : (h0 ev log).2 with
      | none =>
        rw [hr] at hpre
        exact ih _ hpre
      | some e0 =>
        rw [hr] at hpre
        simp at hpre
  · rfl

/-- A concrete envelope for the witness. -/
def demoEnv : Envelope :=
  { id := 1, type := "task:created", source := "test", target := none,
    payload := "payload", timestamp := 0 }

/-- Witness for the amended C2 theorem: with a recording subscriber, then a
throwing one, then another recording one, delivery stops at the throw with
only the first subscriber's effect recorded. -/
theorem publish_throw_aborts_witness :
    runHandlers ([recordingHandler] ++ throwingHandler :: [recordingHandler])
      demoEnv [] = (["h2"], some "boom") :=
  (publish_throw_aborts [recordingHandler] [recordingHandler] throwingHandler
    demoEnv [] ["h2"] ["h2"] "boom" rfl rfl).1

end Ipc

namespace Queue

/-- Task statuses from `src/types.ts`. -/
inductive TStatus where
  | pending
  | queued
  | running
  | completed
  | failed
  | cancelled
deriving DecidableEq, Repr

/-- The task fields the queue reads (`createdAt` as epoch milliseconds). -/
structure Task where
  id : String
  priority : Db.Priority
  createdAt : Int
  retryCount : Nat
  maxRetries : Nat
deriving DecidableEq, Repr

/-- A task row in the store: the task data plus its status column. -/
structure StoreTask where
  task : Task
  status : TStatus
deriving DecidableEq, Repr

/-- `PRIORITY_WEIGHT`: urgent 0, high 1, normal 2, low 3. -/
def priorityWeight : Db.Priority → Nat
  | .urgent => 0
  | .high => 1
  | .normal => 2
  | .low => 3

/-- The events `TaskQueue` emits. -/
inductive QEvent where
  | enqueued (id : String)
  | started (id : String)
  | completed (id : String)
  | retry (id : String)
  | failed (id : String)
  | pausedEv
  | resumedEv
deriving DecidableEq, Repr

/-- The queue state together with the store rows, the emitted events, the
FIFO list of handler completions still to settle (JS microtasks) and the
scheduled retry timers `(delayMs, taskId)`. -/
structure QState where
  concurrency : Nat
  retryDelayMs : Nat
  running : Nat
  paused : Bool
  hasHandler : Bool
  waiting : List Task
  store : List StoreTask
  events : List QEvent
  micro : List Task
  timers : List (Nat × String)
deriving DecidableEq, Repr

/-- `taskRepo.updateStatus` (the columns the queue touches). -/
def updateStatus (id : String) (st : TStatus) (store : List StoreTask) :
    List StoreTask :=
  store.map fun r => if r.task.id = id then { r with status := st } else r

/-- `taskRepo.incrementRetry`. -/
def incrementRetry (id : String) (store : List StoreTask) : List StoreTask :=
  store.map fun r =>
    if r.task.id = id then
      { r with task := { r.task with retryCount := r.task.retryCount + 1 } }
    else r

/-- The store row for a task id. -/
def findRec (id : String) (store : List StoreTask) : Option StoreTask :=
  store.find? fun r => r.task.id = id

/-- `taskRepo.findById` (the task view the queue re-enqueues). -/
def findById (id : String) (store : List StoreTask) : Option Task :=
  (findRec id store).map (·.task)

/-- The sort comparator of `sortWaiting` as a strict order: priority weight
first, `createdAt` ascending second. -/
def sortLt (a b : Task) : Bool :=
  priorityWeight a.priority < priorityWeight b.priority
    || (priorityWeight a.priority = priorityWeight b.priority
        && a.createdAt < b.createdAt)

/-- Insert a task after every element it does not strictly precede — the
stable insertion underlying the JS `Array.prototype.sort` (stable since
ES2019) with the above comparator. -/
def insertStable (a : Task) : List Task → List Task
  | [] => [a]
  | b :: rest => if sortLt a b then a :: b :: rest else b :: insertStable a rest

/-- `TaskQueue.sortWaiting`: stable sort by (priority weight, createdAt). -/
def sortWaiting (l : List Task) : List Task :=
  l.foldl (fun acc t => insertStable t acc) []

/-- The body of the `while` loop in `TaskQueue.drain`: while below the
concurrency limit and the buffer is non-empty, shift the head task,
increment `running` and start it (`processTask` sets status running, emits
`started` and invokes the handler, whose completion joins the microtask
queue). Fuel is the buffer length. -/
def drainLoop : Nat → QState → QState
  | 0, s => s
  | fuel + 1, s =>
    if s.running < s.concurrency then
      match s.waiting with
      | [] => s
      | t :: rest =>
        drainLoop fuel
          { s with waiting := rest, running := s.running + 1,
                   store := updateStatus t.id TStatus.running s.store,
                   events := s.events ++ [QEvent.started t.id],
                   micro := s.micro ++ [t] }
    else s

/-- `TaskQueue.drain`: no dispatch while paused or without a handler. -/
def drain (s : QState) : QState :=
  if s.paused then s
  else if ¬ s.hasHandler then s
  else drainLoop s.waiting.length s

/-- `TaskQueue.enqueue`: persist status queued, push into the buffer, sort,
emit `enqueued`, attempt to drain. -/
def enqueue (t : Task) (s : QState) : QState :=
  let s := { s with store := updateStatus t.id TStatus.queued s.store }
  let s := { s with waiting := sortWaiting (s.waiting ++ [t]) }
  let s := { s with events := s.events ++ [QEvent.enqueued t.id] }
  drain s

/-- `TaskQueue.pause`. -/
def pause (s : QState) : QState :=
  { s with paused := true, events := s.events ++ [QEvent.pausedEv] }

/-- `TaskQueue.resume`. -/
def resume (s : QState) : QState :=
  drain { s with paused := false, events := s.events ++ [QEvent.resumedEv] }

/-- Settle the oldest outstanding handler completion (the `.then`/`.catch`
continuation of `processTask`). `handlerOk id retryCount` tells whether the
handler's promise fulfilled for that dispatch. On rejection with retries
left: increment retry count, set status pending, emit `retry`, schedule a
re-enqueue after `retryDelay * (retryCount + 1)` ms; on exhausted retries:
set status failed, emit `failed`. Either way `running` drops and the queue
drains again. -/
def settle (handlerOk : String → Nat → Bool) (s : QState) : QState :=
  match s.micro with
  | [] => s
  | t :: rest =>
    let s := { s with micro := rest }
    if handlerOk t.id t.retryCount then
      let s := { s with running := s.running - 1 }
      let s := { s with events := s.events ++ [QEvent.completed t.id] }
      drain s
    else
      let s := { s with running := s.running - 1 }
      if t.retryCount < t.maxRetries then
        let s := { s with store := updateStatus t.id TStatus.pending (incrementRetry t.id s.store) }
        let s := { s with events := s.events ++ [QEvent.retry t.id] }
        let s := { s with timers := s.timers ++ [(s.retryDelayMs * (t.retryCount + 1), t.id)] }
        drain s
      else
        let s := { s with store := updateStatus t.id TStatus.failed s.store }
        let s := { s with events := s.events ++ [QEvent.failed t.id] }
        drain s

/-- Fire the oldest scheduled retry timer: look the task up afresh in the
store and re-enqueue it if still present. -/
def fireHeadTimer (s : QState) : QState :=
  match s.timers with
  | [] => s
  | (_, id) :: rest =>
    let s := { s with timers := rest }
    match findById id s.store with
    | some refreshed => enqueue refreshed s
    | none => s

/-- External steps of a queue run. -/
inductive QAct where
  | enq (t : Task)
  | settleOne
  | fire
  | pauseQ
  | resumeQ

/-- Execute one step. -/
def stepAct (handlerOk : String → Nat → Bool) (s : QState) : QAct → QState
  | .enq t => enqueue t s
  | .settleOne => settle handlerOk s
  | .fire => fireHeadTimer s
  | .pauseQ => pause s
  | .resumeQ => resume s

/-- Execute a sequence of steps. -/
def runScript (handlerOk : String → Nat → Bool) (acts : List QAct)
    (s : QState) : QState :=
  acts.foldl (stepAct handlerOk) s

/-- The order in which `completed` events were emitted. -/
def completedOrder (s : QState) : List String :=
  s.events.filterMap fun (e : QEvent) =>
    match e with
    | .completed id => some id
    | _ => none

/-- The order in which `started` events were emitted. -/
def startedOrder (s : QState) : List String :=
  s.events.filterMap fun (e : QEvent) =>
    match e with
    | .started id => some id
    | _ => none

end Queue

namespace Queue

/-- Weak priority order between tasks: sorted buffers are `Pairwise wle`. -/
def wle (a b : Task) : Prop :=
  priorityWeight a.priority ≤ priorityWeight b.priority

theorem mem_insertStable {x a : Task} {l : List Task} :
    x ∈ insertStable a l ↔ x = a ∨ x ∈ l := by
  induction l with
  | nil => simp [insertStable]
  | cons b rest ih =>
    rw [insertStable]
    split
    · simp [List.mem_cons]
    · simp [List.mem_cons, ih]
      tauto

theorem sortLt_true_wle {a b : Task} (h : sortLt a b = true) : wle a b := by
  simp only [sortLt, Bool.or_eq_true, Bool.and_eq_true, decide_eq_true_eq] at h
  rcases h with h | ⟨heq, _⟩
  · exact le_of_lt h
  · exact le_of_eq heq

theorem sortLt_false_wle {a b : Task} (h : sortLt a b = false) : wle b a := by
  simp only [sortLt, Bool.or_eq_false_iff, Bool.and_eq_false_iff,
    decide_eq_false_iff_not] at h
  exact le_of_not_lt h.1

theorem pairwise_insertStable (a : Task) {l : List Task}
    (h : l.Pairwise wle) : (insertStable a l).Pairwise wle := by
  induction l with
  | nil => simp [insertStable]
  | cons b rest ih =>
    rw [insertStable]
    rcases List.pairwise_cons.mp h with ⟨hb, hrest⟩
    rcases hab : sortLt a b with hf | ht
    · rw [if_neg (by simp [hab])]
      refine List.pairwise_cons.mpr ⟨?_, ih hrest⟩
      intro x hx
      rcases mem_insertStable.mp hx with rfl | hxr
      · exact sortLt_false_wle hab
      · exact hb x hxr
    · rw [if_pos (by simp [hab])]
      refine List.pairwise_cons.mpr ⟨?_, h⟩
      intro x hx
      rcases List.mem_cons.mp hx with rfl | hxr
      · exact sortLt_true_wle hab
      · exact le_trans (sortLt_true_wle hab) (hb x hxr)

theorem sortWaiting_pairwise (l : List Task) : (sortWaiting l).Pairwise wle := by
  suffices hgen : ∀ acc : List Task, acc.Pairwise wle →
      (l.foldl (fun acc t => insertStable t acc) acc).Pairwise wle by
    exact hgen [] List.Pairwise.nil
  induction l with
  | nil => intro acc h; exact h
  | cons t rest ih =>
    intro acc h
    exact ih _ (pairwise_insertStable t h)

/-- In a sorted buffer every occurrence of a strictly-higher-rank
(lower-weight) task precedes every occurrence of a lower-rank one. -/
theorem sortWaiting_pos_lt (l : List Task) (a b : Task) (i j : Nat)
    (hw : priorityWeight a.priority < priorityWeight b.priority)
    (ha : (sortWaiting l)[i]? = some a)
    (hb : (sortWaiting l)[j]? = some b) : i < j := by
  obtain ⟨hi, hia⟩ := List.getElem?_eq_some_iff.mp ha
  obtain ⟨hj, hjb⟩ := List.getElem?_eq_some_iff.mp hb
  by_contra hle
  push_neg at hle
  rcases Nat.eq_or_lt_of_le hle with heq | hlt
  · subst heq
    rw [hjb] at hia
    subst hia
    exact lt_irrefl _ hw
  · have hp := (List.pairwise_iff_getElem.mp (sortWaiting_pairwise l)) j i hj hi hlt
    rw [hia, hjb] at hp
    exact absurd hw (not_lt.mpr hp)

theorem drainLoop_events (fuel : Nat) (s : QState) :
    ∃ k, (drainLoop fuel s).events
      = s.events ++ ((s.waiting.take k).map fun t => QEvent.started t.id) := by
  induction fuel generalizing s with
  | zero => exact ⟨0, by simp [drainLoop]⟩
  | succ n ih =>
    rw [drainLoop]
    split
    · cases hw : s.waiting with
      | nil => exact ⟨0, by simp⟩
      | cons t rest =>
        obtain ⟨k, hk⟩ := ih
          { s with waiting := rest, running := s.running + 1,
                   store := updateStatus t.id TStatus.running s.store,
                   events := s.events ++ [QEvent.started t.id],
                   micro := s.micro ++ [t] }
        refine ⟨k + 1, ?_⟩
        rw [hk]
        simp [List.take_succ_cons]
    · exact ⟨0, by simp⟩

theorem drainLoop_timers (fuel : Nat) (s : QState) :
    (drainLoop fuel s).timers = s.timers := by
  induction fuel generalizing s with
  | zero => rfl
  | succ n ih =>
    rw [drainLoop]
    split
    · cases s.waiting with
      | nil => rfl
      | cons t rest => rw [ih]
    · rfl

end Queue

namespace Queue

theorem findRec_updateStatus_self (id : String) (st : TStatus)
    (store : List StoreTask) :
    findRec id (updateStatus id st store)
      = (findRec id store).map fun r => { r with status := st } := by
  induction store with
  | nil => rfl
  | cons r rest ih =>
    by_cases h : r.task.id = id
    · simp [findRec, updateStatus, List.find?, h]
    · simpa [findRec, updateStatus, List.find?, h] using ih

theorem findRec_updateStatus_ne (id idT : String) (st : TStatus)
    (store : List StoreTask) (h : idT ≠ id) :
    findRec id (updateStatus idT st store) = findRec id store := by
  have hIdT : (idT = id) = False := by simp [h]
  induction store with
  | nil => rfl
  | cons r rest ih =>
    by_cases hid : r.task.id = id
    · have hr : ¬ r.task.id = idT := by rw [hid]; exact fun hh => h hh.symm
      have hhead : updateStatus idT st (r :: rest) = r :: updateStatus idT st rest := by
        rw [updateStatus, List.map_cons, if_neg hr]
        rfl
      rw [hhead, findRec, List.find?_cons_of_pos _ (by simpa using hid),
          findRec, List.find?_cons_of_pos _ (by simpa using hid)]
    · by_cases hr : r.task.id = idT
      · simpa [findRec, updateStatus, List.find?, hr, hid, hIdT] using ih
      · simpa [findRec, updateStatus, List.find?, hr, hid] using ih

theorem findRec_incrementRetry_self (id : String) (store : List StoreTask) :
    findRec id (incrementRetry id store)
      = (findRec id store).map fun r =>
          { r with task := { r.task with retryCount := r.task.retryCount + 1 } } := by
  induction store with
  | nil => rfl
  | cons r rest ih =>
    by_cases h : r.task.id = id
    · simp [findRec, incrementRetry, List.find?, h]
    · simpa [findRec, incrementRetry, List.find?, h] using ih

theorem drainLoop_store (fuel : Nat) (s : QState) (id : String)
    (h : ∀ u ∈ s.waiting, u.id ≠ id) :
    findRec id (drainLoop fuel s).store = findRec id s.store := by
  induction fuel generalizing s with
  | zero => rfl
  | succ n ih =>
    rw [drainLoop]
    split
    · cases hw : s.waiting with
      | nil => rfl
      | cons t rest =>
        have ht : t.id ≠ id := h t (by rw [hw]; exact List.mem_cons_self t rest)
        have hrest : ∀ u ∈ rest, u.id ≠ id := by
          intro u hu
          exact h u (by rw [hw]; exact List.mem_cons_of_mem t hu)
        rw [ih _ hrest, findRec_updateStatus_ne _ _ _ _ ht]
    · rfl

theorem drain_timers (s : QState) : (drain s).timers = s.timers := by
  rw [drain]
  split
  · rfl
  · split
    · rfl
    · exact drainLoop_timers _ _

theorem drain_store (s : QState) (id : String)
    (h : ∀ u ∈ s.waiting, u.id ≠ id) :
    findRec id (drain s).store = findRec id s.store := by
  rw [drain]
  split
  · rfl
  · split
    · rfl
    · exact drainLoop_store _ _ _ h

theorem drain_events (s : QState) :
    ∃ k, (drain s).events
      = s.events ++ ((s.waiting.take k).map fun t => QEvent.started t.id) := by
  rw [drain]
  split
  · exact ⟨0, by simp⟩
  · split
    · exact ⟨0, by simp⟩
    · exact drainLoop_events _ _

end Queue

namespace Queue

/-- T1 of scenario S1: low priority, created at t = 0. -/
def demoLow : Task :=
  { id := "t1", priority := .low, createdAt := 0, retryCount := 0, maxRetries := 3 }

/-- T2 of scenario S1: urgent priority, created at t = 1. -/
def demoUrgent : Task :=
  { id := "t2", priority := .urgent, createdAt := 1, retryCount := 0, maxRetries := 3 }

/-- An idle queue with concurrency 1, retry delay 50 ms, a handler
installed, and both scenario tasks persisted as pending. -/
def demoQState : QState :=
  { concurrency := 1, retryDelayMs := 50, running := 0, paused := false,
    hasHandler := true, waiting := [],
    store := [⟨demoLow, .pending⟩, ⟨demoUrgent, .pending⟩],
    events := [], micro := [], timers := [] }

/-- An instantaneous handler that always fulfills. -/
def handlerAlwaysOk : String → Nat → Bool := fun _ _ => true

/-- A handler that always rejects. -/
def handlerAlwaysFail : String → Nat → Bool := fun _ _ => false

/-- The S1 run: enqueue T1 then T2 back to back, then settle the two
handler completions in microtask order. -/
def s1Run : QState :=
  runScript handlerAlwaysOk [.enq demoLow, .enq demoUrgent, .settleOne, .settleOne]
    demoQState

/-- The S1 run with the queue paused during both enqueues, so that both
tasks are in the waiting buffer together before dispatch. -/
def s1PausedRun : QState :=
  runScript handlerAlwaysOk
    [.pauseQ, .enq demoLow, .enq demoUrgent, .resumeQ, .settleOne, .settleOne]
    demoQState

/-- C3 counterexample: enqueueing T1(low, t) then T2(urgent, t+1) into an
idle concurrency-1 queue with an instantaneous handler completes T1 first —
T1 is dispatched synchronously during its own enqueue, before T2 exists —
so the completed order is not T2 then T1 as claimed. -/
theorem s1_completed_order_cex :
    completedOrder s1Run ≠ ["t2", "t1"]
    ∧ completedOrder s1Run = ["t1", "t2"] := by
  constructor
  · decide
  · decide

/-- C3 (amended): dispatch is priority-rank-then-FIFO among tasks that are
in the waiting buffer together: the buffer is always weight-sorted
(`sortWaiting` produces a `Pairwise` weight-ordered list, with every
strictly-lower-weight task positioned before every higher-weight one), and
`drain` starts an in-order prefix of the buffer. When T1(low) and T2(urgent)
are buffered together (queue paused during both enqueues), T2 is started
and completed before T1. The unbuffered S1 scenario instead completes T1
then T2, because the idle queue dispatches T1 during its own enqueue. -/
theorem priority_dispatch_amended :
    (∀ l : List Task, (sortWaiting l).Pairwise wle)
    ∧ (∀ (l : List Task) (a b : Task) (i j : Nat),
        priorityWeight a.priority < priorityWeight b.priority →
        (sortWaiting l)[i]? = some a → (sortWaiting l)[j]? = some b → i < j)
    ∧ (∀ s : QState, ∃ k, (drain s).events
        = s.events ++ ((s.waiting.take k).map fun t => QEvent.started t.id))
    ∧ startedOrder s1PausedRun = ["t2", "t1"]
    ∧ completedOrder s1PausedRun = ["t2", "t1"]
    ∧ completedOrder s1Run = ["t1", "t2"] := by
  refine ⟨sortWaiting_pairwise, sortWaiting_pos_lt, drain_events, ?_, ?_, ?_⟩
  · decide
  · decide
  · decide

/-- Witness for the amended C3 theorem: in the sorted buffer of
[T1(low), T2(urgent)], the urgent task sits strictly before the low one. -/
theorem priority_dispatch_amended_witness : (0 : Nat) < 1 :=
  priority_dispatch_amended.2.1 [demoLow, demoUrgent] demoUrgent demoLow 0 1
    (by decide) (by decide) (by decide)

end Queue

namespace Queue

theorem settle_fail_retry (hok : String → Nat → Bool) (s : QState) (t : Task)
    (rest : List Task)
    (hmicro : s.micro = t :: rest)
    (hfail : hok t.id t.retryCount = false)
    (hlt : t.retryCount < t.maxRetries) :
    settle hok s =
      drain
        { s with
          micro := rest,
          running := s.running - 1,
          store := updateStatus t.id TStatus.pending (incrementRetry t.id s.store),
          events := s.events ++ [QEvent.retry t.id],
          timers := s.timers ++ [(s.retryDelayMs * (t.retryCount + 1), t.id)] } := by
  rw [settle.eq_def, hmicro]
  simp only [hfail, Bool.false_eq_true, if_false, if_pos hlt]

theorem settle_fail_exhausted (hok : String → Nat → Bool) (s : QState) (t : Task)
    (rest : List Task)
    (hmicro : s.micro = t :: rest)
    (hfail : hok t.id t.retryCount = false)
    (hge : t.maxRetries ≤ t.retryCount) :
    settle hok s =
      drain
        { s with
          micro := rest,
          running := s.running - 1,
          store := updateStatus t.id TStatus.failed s.store,
          events := s.events ++ [QEvent.failed t.id] } := by
  rw [settle.eq_def, hmicro]
  simp only [hfail, Bool.false_eq_true, if_false, if_neg (not_lt.mpr hge)]

/-- A task whose `retryCount` equals `maxRetries − 1`: one retry left. -/
def demoRetryTask : Task :=
  { id := "tr", priority := .normal, createdAt := 0, retryCount := 0, maxRetries := 1 }

/-- The retry-chain start state. -/
def demoRetryState : QState :=
  { concurrency := 1, retryDelayMs := 50, running := 0, paused := false,
    hasHandler := true, waiting := [], store := [⟨demoRetryTask, .pending⟩],
    events := [], micro := [], timers := [] }

/-- The retry-chain script: enqueue, fail once (schedules the retry), fire
the retry timer (re-enqueues the refreshed task), fail again. -/
def retryChainRun : QState :=
  runScript handlerAlwaysFail [.enq demoRetryTask, .settleOne, .fire, .settleOne]
    demoRetryState

/-- C4: when the handler rejects for the task at the head of the completion
queue: with `retryCount < maxRetries`, the store row gets retry-count
incremented and status pending, a `retry` event is emitted, and a re-enqueue
timer for `retryDelay·(retryCount+1)` ms is scheduled; with retries
exhausted, the row moves to failed and a `failed` event is emitted.
Concretely, a task with `retryCount = maxRetries − 1 = 0` failing twice
retries exactly once (after 50 = retryDelay·1 ms) and then fails. -/
theorem retry_backoff (hok : String → Nat → Bool) (s : QState) (t : Task)
    (rest : List Task) (r : StoreTask)
    (hmicro : s.micro = t :: rest)
    (hfail : hok t.id t.retryCount = false)
    (hnw : ∀ u ∈ s.waiting, u.id ≠ t.id)
    (hrec : findRec t.id s.store = some r) :
    (t.retryCount < t.maxRetries →
      findRec t.id (settle hok s).store
          = some { task := { r.task with retryCount := r.task.retryCount + 1 },
                   status := TStatus.pending }
      ∧ (∃ tail, (settle hok s).events = s.events ++ [QEvent.retry t.id] ++ tail)
      ∧ (settle hok s).timers
          = s.timers ++ [(s.retryDelayMs * (t.retryCount + 1), t.id)])
    ∧ (t.maxRetries ≤ t.retryCount →
      findRec t.id (settle hok s).store = some { r with status := TStatus.failed }
      ∧ (∃ tail, (settle hok s).events = s.events ++ [QEvent.failed t.id] ++ tail))
    ∧ (retryChainRun.events
        = [.enqueued "tr", .started "tr", .retry "tr",
           .enqueued "tr", .started "tr", .failed "tr"]
      ∧ findRec "tr" retryChainRun.store
          = some ⟨{ demoRetryTask with retryCount := 1 }, TStatus.failed⟩
      ∧ (runScript handlerAlwaysFail [.enq demoRetryTask, .settleOne]
          demoRetryState).timers = [(50, "tr")]) := by
  refine ⟨?_, ?_, ?_⟩
  · intro hlt
    rw [settle_fail_retry hok s t rest hmicro hfail hlt]
    refine ⟨?_, ?_, ?_⟩
    · rw [drain_store
        { s with
          micro := rest,
          running := s.running - 1,
          store := updateStatus t.id TStatus.pending (incrementRetry t.id s.store),
          events := s.events ++ [QEvent.retry t.id],
          timers := s.timers ++ [(s.retryDelayMs * (t.retryCount + 1), t.id)] }
        t.id hnw]
      rw [findRec_updateStatus_self, findRec_incrementRetry_self, hrec]
      rfl
    · obtain ⟨k, hk⟩ := drain_events
        { s with
          micro := rest,
          running := s.running - 1,
          store := updateStatus t.id TStatus.pending (incrementRetry t.id s.store),
          events := s.events ++ [QEvent.retry t.id],
          timers := s.timers ++ [(s.retryDelayMs * (t.retryCount + 1), t.id)] }
      refine ⟨(s.waiting.take k).map (fun u => QEvent.started u.id), ?_⟩
      rw [hk]
    · rw [drain_timers]
  · intro hge
    rw [settle_fail_exhausted hok s t rest hmicro hfail hge]
    constructor
    · rw [drain_store
        { s with
          micro := rest,
          running := s.running - 1,
          store := updateStatus t.id TStatus.failed s.store,
          events := s.events ++ [QEvent.failed t.id] }
        t.id hnw]
      rw [findRec_updateStatus_self, hrec]
      rfl
    · obtain ⟨k, hk⟩ := drain_events
        { s with
          micro := rest,
          running := s.running - 1,
          store := updateStatus t.id TStatus.failed s.store,
          events := s.events ++ [QEvent.failed t.id] }
      refine ⟨(s.waiting.take k).map (fun u => QEvent.started u.id), ?_⟩
      rw [hk]
  · refine ⟨?_, ?_, ?_⟩ <;> decide

/-- The state right after enqueueing the retry task: its handler completion
is pending settlement. -/
def preRetryState : QState :=
  runScript handlerAlwaysFail [.enq demoRetryTask] demoRetryState

/-- Witness for C4: settling the failed handler completion of the concrete
retry task increments its stored retry count, marks it pending, and
schedules the 50 ms re-enqueue timer. -/
theorem retry_backoff_witness :
    findRec "tr" (settle handlerAlwaysFail preRetryState).store
        = some ⟨{ demoRetryTask with retryCount := 1 }, TStatus.pending⟩
    ∧ (settle handlerAlwaysFail preRetryState).timers = [(50, "tr")] := by
  have h := (retry_backoff handlerAlwaysFail preRetryState demoRetryTask []
    ⟨demoRetryTask, TStatus.running⟩
    (by decide) rfl
    (by
      intro u hu
      rw [show preRetryState.waiting = [] by decide] at hu
      exact absurd hu (List.not_mem_nil u))
    (by decide)).1 (by decide)
  exact ⟨h.1, h.2.2⟩

end Queue

namespace Runner

open StrUtil

/-- `AgentOutputSchema.status`; the third source literal is `"partial"`,
rendered here as `partialResult`. -/
inductive AOStatus where
  | completed
  | failed
  | partialResult
  | escalated
deriving DecidableEq, Repr

/-- One entry of `AgentOutput.outputs` (the free-form metadata record kept
as an association list). -/
structure OutputItem where
  type : String
  content : String
  metadata : Option (List (String × String))
deriving DecidableEq, Repr

/-- `AgentOutputSchema.metadata`: all fields optional. -/
structure AOMetadata where
  tokens : Option Int
  duration_ms : Option Int
  model : Option String
  agentId : Option String
deriving DecidableEq, Repr

/-- The validated Agent-Output shape from `src/types.ts`. -/
structure AgentOutput where
  status : AOStatus
  priority : Db.Priority
  summary : String
  needsReview : Bool
  outputs : List OutputItem
  metadata : AOMetadata
  error : Option String
deriving DecidableEq, Repr

/-- `OUTPUT_START_MARKER` (bit-exact). -/
def startMarker : String := "---CORECLAW_OUTPUT_START---"

/-- `OUTPUT_END_MARKER` (bit-exact). -/
def endMarker : String := "---CORECLAW_OUTPUT_END---"

/-- The loop of `extractOutputs`: scan forward from `searchFrom` for a
start marker, then for an end marker after it; trim the slice in between
and hand it to `parseValidate` (modelling `JSON.parse` +
`AgentOutputSchema.safeParse`); collect the frame when validation
succeeds, skip it silently otherwise, and continue after the end marker.
Fuel bounds the scan (each iteration advances `searchFrom`). -/
def extractGo (parseValidate : String → Option AgentOutput) (raw : List Char) :
    Nat → Nat → List AgentOutput
  | _, 0 => []
  | searchFrom, fuel + 1 =>
    match indexOfFrom startMarker.data raw searchFrom with
    | none => []
    | some startIdx =>
      let jsonStart := startIdx + startMarker.length
      match indexOfFrom endMarker.data raw jsonStart with
      | none => []
      | some endIdx =>
        let jsonStr := jsTrim (((raw.drop jsonStart).take (endIdx - jsonStart)).asString)
        let next := endIdx + endMarker.length
        match parseValidate jsonStr with
        | some out => out :: extractGo parseValidate raw next fuel
        | none => extractGo parseValidate raw next fuel

/-- `extractOutputs` from `src/container-runner.ts`. -/
def extractOutputs (parseValidate : String → Option AgentOutput)
    (raw : String) : List AgentOutput :=
  extractGo parseValidate raw.data 0 (raw.length + 1)

/-- The `close` handler's selection: the last frame of the parse is the
canonical output (`parsed[parsed.length - 1]`). -/
def canonicalOutput (parseValidate : String → Option AgentOutput)
    (raw : String) : Option AgentOutput :=
  (extractOutputs parseValidate raw).getLast?

/-- Frame F1. -/
def frameOne : AgentOutput :=
  { status := .completed, priority := .normal, summary := "ok",
    needsReview := false, outputs := [], metadata := ⟨none, none, none, none⟩,
    error := none }

/-- Frame F2. -/
def frameTwo : AgentOutput :=
  { status := .completed, priority := .high, summary := "second frame",
    needsReview := true,
    outputs := [{ type := "reply", content := "Antwort", metadata := none }],
    metadata := ⟨some 12, none, none, none⟩, error := none }

/-- A concrete parse+validate function: the body `J1` decodes to F1, `J2`
to F2, anything else is malformed or fails schema validation. -/
def demoParse : String → Option AgentOutput := fun s =>
  if s = "J1" then some frameOne
  else if s = "J2" then some frameTwo
  else none

/-- Worker stdout carrying diagnostic noise and two valid frames. -/
def stdoutTwoValid : String :=
  "debug\n" ++ startMarker ++ "\nJ1\n" ++ endMarker ++ "\n"
    ++ startMarker ++ "\nJ2\n" ++ endMarker ++ "\n"

/-- The same stdout with the second frame body replaced by invalid JSON. -/
def stdoutSecondInvalid : String :=
  "debug\n" ++ startMarker ++ "\nJ1\n" ++ endMarker ++ "\n"
    ++ startMarker ++ "\nnotjson\n" ++ endMarker ++ "\n"

/-- Every frame collected by the loop came out of a successful
parse+validate — malformed or invalid-shape frame bodies are skipped. -/
theorem extractGo_valid (pv : String → Option AgentOutput) (raw : List Char)
    (start fuel : Nat) (o : AgentOutput) (h : o ∈ extractGo pv raw start fuel) :
    ∃ js, pv js = some o := by
  induction fuel generalizing start with
  | zero => simp [extractGo] at h
  | succ n ih =>
    rw [extractGo] at h
    rcases h1 : indexOfFrom startMarker.data raw start with _ | startIdx
    · rw [h1] at h
      simp at h
    · rw [h1] at h
      dsimp only at h
      rcases h2 : indexOfFrom endMarker.data raw (startIdx + startMarker.length)
        with _ | endIdx
      · rw [h2] at h
        simp at h
      · rw [h2] at h
        dsimp only at h
        rcases h3 : pv (jsTrim (((raw.drop (startIdx + startMarker.length)).take
            (endIdx - (startIdx + startMarker.length))).asString)) with _ | out
        · rw [h3] at h
          exact ih _ h
        · rw [h3] at h
          rcases List.mem_cons.mp h with rfl | hrest
          · exact ⟨_, h3⟩
          · exact ih _ hrest

/-- C5: sentinel parsing returns the last frame between the literal
start/end markers whose body parses and validates, skipping invalid
frames: with two valid frames the canonical output is F2, with the second
frame replaced by invalid JSON it is F1, and every returned frame comes
from a successful parse+validate. -/
theorem extractOutputs_last_valid :
    extractOutputs demoParse stdoutTwoValid = [frameOne, frameTwo]
    ∧ canonicalOutput demoParse stdoutTwoValid = some frameTwo
    ∧ extractOutputs demoParse stdoutSecondInvalid = [frameOne]
    ∧ canonicalOutput demoParse stdoutSecondInvalid = some frameOne
    ∧ (∀ (pv : String → Option AgentOutput) (raw : String) (o : AgentOutput),
        o ∈ extractOutputs pv raw → ∃ js, pv js = some o) := by
  refine ⟨?_, ?_, ?_, ?_, ?_⟩
  · decide
  · decide
  · decide
  · decide
  · intro pv raw o h
    exact extractGo_valid pv raw.data 0 (raw.length + 1) o h

/-- Witness for C5's general conjunct at the concrete stdout: F1 is
returned, so some frame body parses to it. -/
theorem extractOutputs_last_valid_witness :
    ∃ js, demoParse js = some frameOne :=
  extractOutputs_last_valid.2.2.2.2 demoParse stdoutTwoValid frameOne (by decide)

end Runner

namespace Skills

open StrUtil

/-- A directory tree as an association list from relative path to file
content. -/
abbrev FileTree := List (String × String)

/-- Read a file (`fs.readFileSync` guarded by `fs.existsSync`). -/
def fsRead (tree : FileTree) (p : String) : Option String :=
  (tree.find? fun e => e.1 = p).map (·.2)

/-- `fs.existsSync`. -/
def fsExists (tree : FileTree) (p : String) : Bool :=
  (fsRead tree p).isSome

/-- `fs.writeFileSync` / `fs.copyFileSync` target: create or overwrite. -/
def fsWrite (tree : FileTree) (p : String) (content : String) : FileTree :=
  if fsExists tree p then tree.map fun e => if e.1 = p then (p, content) else e
  else tree ++ [(p, content)]

/-- `fs.unlinkSync`. -/
def fsRemove (tree : FileTree) (p : String) : FileTree :=
  tree.filter fun e => ¬ e.1 = p

/-- One `file_ops` entry (`from`/`to` rendered as `fromPath`/`toPath`). -/
structure FileOp where
  type : String
  fromPath : String
  toPath : Option String
deriving DecidableEq, Repr

/-- The validated skill manifest (`SkillManifestSchema`), with the
`structured` block flattened into `npmDependencies`/`envAdditions`. -/
structure SkillManifest where
  skill : String
  version : String
  adds : List String
  modifies : List String
  npmDependencies : List (String × String)
  envAdditions : List String
  depends : List String
  conflicts : List String
  test : Option String
  postApply : List String
  fileOps : List FileOp
deriving DecidableEq, Repr

/-- An applied-skill record (per-file hashes modelled by the hashed
content itself). -/
structure AppliedSkill where
  name : String
  version : String
  fileHashes : List (String × String)
deriving DecidableEq, Repr

/-- The project state the skill engine mutates: the project tree, the
`.coreclaw/base/` snapshots, the `.coreclaw/backup/` tree with its
manifest, and the applied-skills list of `state.json`. -/
structure SkillsState where
  tree : FileTree
  base : FileTree
  backup : FileTree
  backupManifest : Option (List String)
  appliedSkills : List AppliedSkill
deriving DecidableEq, Repr

/-- The external world: which commands exit zero (`execFileNoThrow`
status), the `git merge-file -p` output, and the `package.json` dependency
merge. -/
structure ExecEnv where
  execOk : String → Bool
  gitMerge : String → String → String → String
  pkgMerge : List (String × String) → String → String

/-- `isSkillApplied`. -/
def isSkillApplied (name : String) (st : SkillsState) : Bool :=
  st.appliedSkills.any fun s => s.name = name

/-- `validatePreApply`: already-applied, missing dependencies, applied
conflicts. -/
def validatePreApply (m : SkillManifest) (st : SkillsState) : List String :=
  (if isSkillApplied m.skill st
   then ["Skill \"" ++ m.skill ++ "\" is already applied"] else [])
  ++ (m.depends.filter fun d => ¬ isSkillApplied d st).map
      (fun d => "Missing dependency: \"" ++ d ++ "\" must be applied first")
  ++ (m.conflicts.filter fun c => isSkillApplied c st).map
      (fun c => "Conflicts with applied skill: \"" ++ c ++ "\"")

/-- `createBackup`: clear the backup slot, then copy each listed file that
exists into `backup/` and record it in the manifest — files that do not
exist yet (e.g. the skill's `adds`) are skipped. -/
def createBackup (files : List String) (st : SkillsState) : SkillsState :=
  let st := { st with backup := [], backupManifest := none }
  let present := files.filter fun p => fsExists st.tree p
  { st with
    backup := present.filterMap fun p => (fsRead st.tree p).map fun c => (p, c),
    backupManifest := some present }

/-- `restoreBackup`: copy every manifest-listed file back into the project
tree, then clear the backup. Files absent from the manifest are left
untouched — nothing is ever deleted. -/
def restoreBackup (st : SkillsState) : Bool × SkillsState :=
  match st.backupManifest with
  | none => (false, st)
  | some files =>
    let tree := files.foldl (fun tr p =>
      match fsRead st.backup p with
      | some c => fsWrite tr p c
      | none => tr) st.tree
    (true, { st with tree := tree, backup := [], backupManifest := none })

/-- `clearBackup`. -/
def clearBackup (st : SkillsState) : SkillsState :=
  { st with backup := [], backupManifest := none }

/-- `executeFileOp`: delete / rename / move against the project tree. -/
def executeFileOp (op : FileOp) (tree : FileTree) : FileTree :=
  if op.type = "delete" then
    if fsExists tree op.fromPath then fsRemove tree op.fromPath else tree
  else if op.type = "rename" ∨ op.type = "move" then
    match op.toPath with
    | some dest =>
      match fsRead tree op.fromPath with
      | some c => fsWrite (fsRemove tree op.fromPath) dest c
      | none => tree
    | none => tree
  else tree

/-- `threeWayMerge`: missing base or missing current file falls back to
overlay (skill content wins); otherwise `git merge-file -p` runs and
conflicts are detected by the presence of both conflict markers. -/
def threeWayMerge (env : ExecEnv) (base current : Option String)
    (skillContent : String) : String × Bool :=
  match base with
  | none => (skillContent, false)
  | some b =>
    match current with
    | none => (skillContent, false)
    | some c =>
      let content := env.gitMerge b c skillContent
      let hasConflicts :=
        containsSub content "<<<<<<<" && containsSub content ">>>>>>>"
      (content, hasConflicts)

/-- `mergeNpmDeps`: no-op when the project has no `package.json`. -/
def mergeNpmDeps (env : ExecEnv) (deps : List (String × String))
    (tree : FileTree) : FileTree :=
  match fsRead tree "package.json" with
  | none => tree
  | some c => fsWrite tree "package.json" (env.pkgMerge deps c)

/-- `addEnvVars`: append each variable not yet mentioned in
`.env.example`. -/
def addEnvVars (vars : List String) (tree : FileTree) : FileTree :=
  let content := (fsRead tree ".env.example").getD ""
  let content := vars.foldl (fun acc v =>
    if containsSub acc v then acc
    else acc ++ "\n# Added by skill\n" ++ v ++ "=\n") content
  fsWrite tree ".env.example" content

/-- `ApplyResult`. -/
structure ApplyResult where
  success : Bool
  skill : String
  version : String
  filesAdded : List String
  filesModified : List String
  mergeConflicts : List String
  npmDepsAdded : List (String × String)
  envVarsAdded : List String
  error : Option String
deriving DecidableEq, Repr

/-- `failResult`. -/
def failResult (m : SkillManifest) (error : String) : ApplyResult :=
  { success := false, skill := m.skill, version := m.version,
    filesAdded := [], filesModified := [], mergeConflicts := [],
    npmDepsAdded := [], envVarsAdded := [], error := some error }

/-- Step 2 of the try block: copy each `adds` file from the skill's `add/`
tree into the project; a missing source throws. Thrown errors carry the
state at throw time — the filesystem mutations made so far persist. -/
def copyAdds (addDir : FileTree) (adds : List String) (st : SkillsState) :
    Except (String × SkillsState) (SkillsState × List String) :=
  adds.foldlM (fun (acc : SkillsState × List String) rel =>
    match fsRead addDir rel with
    | none => .error ("Skill declares add file \"" ++ rel
        ++ "\" but it doesn't exist in add/", acc.1)
    | some c =>
      .ok ({ acc.1 with tree := fsWrite acc.1.tree rel c }, acc.2 ++ [rel]))
    (st, [])

/-- Step 3 of the try block: for each `modifies` file, snapshot the current
file into `base/` when no base exists yet, three-way merge and write the
result (with markers when conflicted), collecting modified files and
conflicts. -/
def mergeModifies (env : ExecEnv) (modifyDir : FileTree)
    (modifies : List String) (st : SkillsState) :
    Except (String × SkillsState) (SkillsState × List String × List String) :=
  modifies.foldlM (fun (acc : SkillsState × List String × List String) rel =>
    let (st, mods, confl) := acc
    match fsRead modifyDir rel with
    | none => .error ("Skill declares modify file \"" ++ rel
        ++ "\" but it doesn't exist in modify/", st)
    | some skillContent =>
      let st :=
        if (fsRead st.base rel).isSome then st
        else
          match fsRead st.tree rel with
          | some cur => { st with base := fsWrite st.base rel cur }
          | none => st
      let merged := threeWayMerge env (fsRead st.base rel) (fsRead st.tree rel)
        skillContent
      let st := { st with tree := fsWrite st.tree rel merged.1 }
      .ok (st, mods ++ [rel], if merged.2 then confl ++ [rel] else confl))
    (st, [], [])

/-- `applySkill` from `src/skills/apply.ts`. The skill directory is given
as its `add/` and `modify/` trees plus the manifest. Mirrors the source:
pre-flight, backup, file ops, adds, modifies, dependency merge, env vars,
`npm install` (checked), `post_apply` commands (exit status discarded),
`test` (checked), record state, base snapshots, clear backup; on any
thrown error, `restoreBackup` on the state at throw time and a
`failResult`. -/
def applySkill (env : ExecEnv) (addDir modifyDir : FileTree)
    (m : SkillManifest) (st0 : SkillsState) : ApplyResult × SkillsState :=
  let errors := validatePreApply m st0
  if ¬ errors.isEmpty then
    (failResult m (String.intercalate "; " errors), st0)
  else
    let allAffected := m.adds ++ m.modifies
      ++ (if ¬ m.npmDependencies.isEmpty then ["package.json"] else [])
    let stb := createBackup allAffected st0
    let attempt :
        Except (String × SkillsState)
          (SkillsState × List String × List String × List String) := do
      let stOps :=
        { stb with tree := m.fileOps.foldl (fun tr op => executeFileOp op tr) stb.tree }
      let r2 ← copyAdds addDir m.adds stOps
      let r3 ← mergeModifies env modifyDir m.modifies r2.1
      let st4 :=
        if ¬ m.npmDependencies.isEmpty then
          { r3.1 with tree := mergeNpmDeps env m.npmDependencies r3.1.tree }
        else r3.1
      let st5 :=
        if ¬ m.envAdditions.isEmpty then
          { st4 with tree := addEnvVars m.envAdditions st4.tree }
        else st4
      if ¬ m.npmDependencies.isEmpty && ¬ env.execOk "npm install" then
        Except.error ("npm install failed", st5)
      else
        let _ := m.postApply.map env.execOk
        match m.test with
        | some cmd =>
          if ¬ env.execOk cmd then Except.error ("Skill tests failed", st5)
          else .ok (st5, r2.2, r3.2.1, r3.2.2)
        | none => .ok (st5, r2.2, r3.2.1, r3.2.2)
    match attempt with
    | .ok (st5, filesAdded, filesModified, mergeConflicts) =>
      let fileHashes := (filesAdded ++ filesModified).map
        fun f => (f, (fsRead st5.tree f).getD "")
      let applied : AppliedSkill :=
        { name := m.skill, version := m.version, fileHashes := fileHashes }
      let st6 := { st5 with appliedSkills :=
        (st5.appliedSkills.filter fun (s : AppliedSkill) => ¬ s.name = m.skill) ++ [applied] }
      let newBase := filesModified.foldl (fun b f =>
        match fsRead st6.tree f with
        | some c => fsWrite b f c
        | none => b) st6.base
      let st7 := { st6 with base := newBase }
      let st8 := clearBackup st7
      ({ success := mergeConflicts.isEmpty, skill := m.skill,
         version := m.version, filesAdded := filesAdded,
         filesModified := filesModified, mergeConflicts := mergeConflicts,
         npmDepsAdded := m.npmDependencies,
         envVarsAdded := m.envAdditions, error := none }, st8)
    | .error (e, stErr) => (failResult m e, (restoreBackup stErr).2)

end Skills

namespace Skills

/-- `Option.map` does not change definedness. -/
theorem isSome_map (f : α → β) (o : Option α) : (o.map f).isSome = o.isSome := by
  cases o <;> rfl

/-- Path presence as membership of a matching entry. -/
theorem fsExists_iff (t : FileTree) (p : String) :
    fsExists t p = true ↔ ∃ e ∈ t, e.1 = p := by
  rw [fsExists, fsRead, isSome_map, List.find?_isSome]
  simp

/-- Writing one file never removes another: `fsWrite` preserves every
existing path. -/
theorem fsExists_fsWrite (tr : FileTree) (q c p : String)
    (h : fsExists tr p = true) : fsExists (fsWrite tr q c) p = true := by
  rw [fsExists_iff] at h ⊢
  obtain ⟨e, he, hp⟩ := h
  rw [fsWrite]
  split
  · refine ⟨if e.1 = q then (q, c) else e, List.mem_map.mpr ⟨e, he, rfl⟩, ?_⟩
    by_cases hq : e.1 = q
    · rw [if_pos hq]
      show q = p
      rw [← hq]
      exact hp
    · rw [if_neg hq]
      exact hp
  · exact ⟨e, List.mem_append_left _ he, hp⟩

/-- `restoreBackup` only copies files back — it never deletes: every path
present before the restore is present afterwards. In particular a file
introduced by a skill's `adds` (absent pre-apply, hence absent from the
backup manifest) survives the rollback. -/
theorem restoreBackup_preserves (st : SkillsState) (p : String)
    (h : fsExists st.tree p = true) :
    fsExists (restoreBackup st).2.tree p = true := by
  rw [restoreBackup]
  cases hm : st.backupManifest with
  | none => exact h
  | some files =>
    dsimp only
    suffices hgen : ∀ (fs : List String) (tr : FileTree),
        fsExists tr p = true →
        fsExists (fs.foldl (fun tr q =>
          match fsRead st.backup q with
          | some c => fsWrite tr q c
          | none => tr) tr) p = true by
      exact hgen files st.tree h
    intro fs
    induction fs with
    | nil => intro tr htr; exact htr
    | cons q rest ih =>
      intro tr htr
      rw [List.foldl_cons]
      cases hq : fsRead st.backup q with
      | none =>
        simp only [hq]
        exact ih tr htr
      | some c =>
        simp only [hq]
        exact ih _ (fsExists_fsWrite tr q c p htr)

/-- The external world for the C1 scenarios: `postcmd` and `testcmd` exit
non-zero, everything else succeeds. -/
def demoEnv : ExecEnv :=
  { execOk := fun c => ! (c = "postcmd" || c = "testcmd"),
    gitMerge := fun _ _ s => s,
    pkgMerge := fun _ c => c }

/-- A skill adding one file whose only command is a failing `post_apply`. -/
def postApplyManifest : SkillManifest :=
  { skill := "webhook-channel", version := "1.0.0", adds := ["src/new.ts"],
    modifies := [], npmDependencies := [], envAdditions := [], depends := [],
    conflicts := [], test := none, postApply := ["postcmd"], fileOps := [] }

/-- The skill's `add/` tree. -/
def demoAddDir : FileTree := [("src/new.ts", "NEW")]

/-- A clean project. -/
def cleanState : SkillsState :=
  { tree := [("README.md", "readme")], base := [], backup := [],
    backupManifest := none, appliedSkills := [] }

/-- The same skill with a failing `test` command and one modified file. -/
def testFailManifest : SkillManifest :=
  { skill := "webhook-channel", version := "1.0.0", adds := ["src/new.ts"],
    modifies := ["src/mod.ts"], npmDependencies := [], envAdditions := [],
    depends := [], conflicts := [], test := some "testcmd", postApply := [],
    fileOps := [] }

/-- The skill's `modify/` tree. -/
def demoModifyDir : FileTree := [("src/mod.ts", "SKILL")]

/-- A project whose `src/mod.ts` pre-apply content is `ORIG`. -/
def modState : SkillsState :=
  { tree := [("src/mod.ts", "ORIG")], base := [], backup := [],
    backupManifest := none, appliedSkills := [] }

/-- C1: `applySkill` is not atomic in the claimed sense. (1) A `post_apply`
command exiting non-zero is not detected at all: the apply reports success,
the added file stays in the tree and the skill is recorded as applied.
(2) Even a genuinely thrown failure (the `test` command) restores only
backed-up files: the modified file returns to its pre-apply content and the
skill is not recorded, but the file from `adds` — absent pre-apply and
hence never backed up — remains in the tree. (3) Generally, `restoreBackup`
never removes any path. -/
theorem applySkill_rollback_gap :
    ((applySkill demoEnv demoAddDir [] postApplyManifest cleanState).1.success = true
      ∧ (applySkill demoEnv demoAddDir [] postApplyManifest cleanState).1.error = none
      ∧ fsRead (applySkill demoEnv demoAddDir [] postApplyManifest cleanState).2.tree
          "src/new.ts" = some "NEW"
      ∧ isSkillApplied "webhook-channel"
          (applySkill demoEnv demoAddDir [] postApplyManifest cleanState).2 = true)
    ∧ ((applySkill demoEnv demoAddDir demoModifyDir testFailManifest modState).1.success
          = false
      ∧ (applySkill demoEnv demoAddDir demoModifyDir testFailManifest modState).1.error
          = some "Skill tests failed"
      ∧ fsRead (applySkill demoEnv demoAddDir demoModifyDir testFailManifest
          modState).2.tree "src/mod.ts" = some "ORIG"
      ∧ fsRead (applySkill demoEnv demoAddDir demoModifyDir testFailManifest
          modState).2.tree "src/new.ts" = some "NEW"
      ∧ isSkillApplied "webhook-channel"
          (applySkill demoEnv demoAddDir demoModifyDir testFailManifest modState).2
          = false)
    ∧ (∀ (st : SkillsState) (p : String),
        fsExists st.tree p = true → fsExists (restoreBackup st).2.tree p = true) := by
  refine ⟨⟨?_, ?_, ?_, ?_⟩, ⟨?_, ?_, ?_, ?_, ?_⟩, restoreBackup_preserves⟩ <;> decide

/-- Witness for the general rollback-never-deletes conjunct of C1: a
restore from a backup holding only `a` keeps the unrelated `x` present. -/
theorem applySkill_rollback_gap_witness :
    fsExists (restoreBackup
      { tree := [("a", "1"), ("x", "0")], base := [],
        backup := [("a", "old")], backupManifest := some ["a"],
        appliedSkills := [] }).2.tree "x" = true :=
  applySkill_rollback_gap.2.2
    { tree := [("a", "1"), ("x", "0")], base := [],
      backup := [("a", "old")], backupManifest := some ["a"],
      appliedSkills := [] } "x" (by decide)

end Skills
